import Mathlib

/-
Verification development for the runc-based container supervisor
(service/gcs/runtime/runc of the opengcs repository).

This file gives a shallow embedding of the code in runc.go and ioutils.go.
External effects (the runc tool invocations, /proc reads, filesystem calls)
are passed in as explicit oracle inputs recording the outcome the OS would
give; the embedded functions mirror the control flow of the Go source over
those inputs.  Go maps keyed by pid are embedded as association lists whose
insert operation overwrites an existing key, matching Go map semantics up
to iteration order (no claim below depends on iteration order).
-/

/-- Source constant `initPidFilename` in runc.go: the one reserved non-pid
filename inside a container directory. -/
def initPidFilename : String := "initpid"

/-- Digit-string accumulator for the Atoi embedding. -/
def parseDigits : List Char → Nat → Option Nat
  | [], acc => some acc
  | c :: rest, acc =>
    if c.isDigit then parseDigits rest (acc * 10 + (c.toNat - ('0').toNat)) else none

/-- Embeds strconv.Atoi as used on directory names in runc.go: an optional
sign followed by at least one decimal digit, nothing else accepted.  The
64-bit range check of the Go function is omitted; no claim involves an
out-of-range pid. -/
def atoi (s : String) : Option Int :=
  match s.data with
  | [] => none
  | '-' :: rest =>
    if rest.isEmpty then none else (parseDigits rest 0).map fun n => -(n : Int)
  | '+' :: rest =>
    if rest.isEmpty then none else (parseDigits rest 0).map fun n => (n : Int)
  | l => (parseDigits l 0).map fun n => (n : Int)

/-- Embeds `runtime.ContainerProcessState` (runtime.go). -/
structure ContainerProcessState where
  Pid : Int
  Command : List String
  CreatedByRuntime : Bool
  IsZombie : Bool
deriving DecidableEq, Repr

/-- OS oracle for the reconciliation functions.  `processExists` embeds the
runcRuntime processExists helper (declared in this package, body outside the
given sources: it reports whether the pid is live in /proc).
`getProcessCommand` embeds runcRuntime.getProcessCommand (runc.go), whose
result depends on the ambient /proc filesystem: `none` means the cmdline
read failed, `some cmd` the parsed argument list. -/
structure OsOracle where
  processExists : Int → Bool
  getProcessCommand : Int → Option (List String)

/-- Error outcomes of GetRunningProcesses / GetAllProcesses that originate
inside the loops embedded here (command lookup failure, pid-directory name
that fails strconv.Atoi).  Failures of runc ps or of the directory read
happen before these inputs exist and are outside this embedding. -/
inductive ReconcileErr where
  | commandFailed (pid : Int)
  | parsePidFailed (name : String)
deriving DecidableEq, Repr

/-- Association-list lookup, embedding a Go map read `pidMap[pid]`. -/
def pidLookup : List (Int × ContainerProcessState) → Int → Option ContainerProcessState
  | [], _ => none
  | (k, v) :: rest, pid => if k = pid then some v else pidLookup rest pid

/-- Association-list insert-or-overwrite, embedding `pidMap[pid] = v`. -/
def pidInsert : List (Int × ContainerProcessState) → Int → ContainerProcessState → List (Int × ContainerProcessState)
  | [], pid, v => [(pid, v)]
  | (k, w) :: rest, pid, v =>
    if k = pid then (k, v) :: rest else (k, w) :: pidInsert rest pid v

/-- Embeds `pidMap[pid].CreatedByRuntime = true` guarded by presence, from
the directory-scan loops of runc.go (a no-op when the pid is absent). -/
def setCreatedByRuntime : List (Int × ContainerProcessState) → Int → List (Int × ContainerProcessState)
  | [], _ => []
  | (k, v) :: rest, pid =>
    if k = pid then (k, { v with CreatedByRuntime := true }) :: rest
    else (k, v) :: setCreatedByRuntime rest pid

/-- The keys of the embedded pid map. -/
def pidKeys (m : List (Int × ContainerProcessState)) : List Int :=
  m.map Prod.fst

/-- The seeded entry for one running pid (Pid and Command filled in,
CreatedByRuntime and IsZombie false), as built by the first loop of both
GetRunningProcesses and GetAllProcesses. -/
def seedVal (o : OsOracle) (pid : Int) : Option ContainerProcessState :=
  match o.getProcessCommand pid with
  | some c => some ⟨pid, c, false, false⟩
  | none => none

/-- First loop of GetRunningProcesses / GetAllProcesses (runc.go): seed the
pid map with every pid reported running by runc ps, failing when a cmdline
read fails.  `acc` is the map built so far (the Go loop starts from the
empty map). -/
def seedPids (o : OsOracle) : List Int → List (Int × ContainerProcessState) → Except ReconcileErr (List (Int × ContainerProcessState))
  | [], acc => .ok acc
  | pid :: rest, acc =>
    match o.getProcessCommand pid with
    | none => .error (.commandFailed pid)
    | some c => seedPids o rest (pidInsert acc pid ⟨pid, c, false, false⟩)

/-- Second loop of GetRunningProcesses (runc.go lines 250-260): for every
directory entry other than the reserved filename, parse the name as a pid
(hard error on failure) and flip CreatedByRuntime on the entry when the pid
is in the map. -/
def scanDirsRunning : List String → List (Int × ContainerProcessState) → Except ReconcileErr (List (Int × ContainerProcessState))
  | [], m => .ok m
  | name :: rest, m =>
    if name = initPidFilename then scanDirsRunning rest m
    else
      match atoi name with
      | none => .error (.parsePidFailed name)
      | some pid => scanDirsRunning rest (setCreatedByRuntime m pid)

/-- Embeds container.GetRunningProcesses (runc.go), as a function of the
authoritative running-pid list from runc ps, the container-directory
listing, and the OS oracle.  The Go function finally converts the map to a
slice in arbitrary iteration order; the embedding returns the map itself. -/
def getRunningProcesses (o : OsOracle) (pids : List Int) (dirNames : List String) : Except ReconcileErr (List (Int × ContainerProcessState)) :=
  match seedPids o pids [] with
  | .error e => .error e
  | .ok m => scanDirsRunning dirNames m

/-- Second loop of GetAllProcesses (runc.go lines 291-313): for every
non-reserved directory entry, parse the name as a pid (hard error on
failure); when the OS says the pid still exists, flip CreatedByRuntime when
it is in the map, and otherwise insert it as a zombie with its fetched
command line. -/
def scanDirsAll (o : OsOracle) : List String → List (Int × ContainerProcessState) → Except ReconcileErr (List (Int × ContainerProcessState))
  | [], m => .ok m
  | name :: rest, m =>
    if name = initPidFilename then scanDirsAll o rest m
    else
      match atoi name with
      | none => .error (.parsePidFailed name)
      | some pid =>
        if o.processExists pid then
          match pidLookup m pid with
          | some _ => scanDirsAll o rest (setCreatedByRuntime m pid)
          | none =>
            match o.getProcessCommand pid with
            | none => .error (.commandFailed pid)
            | some c => scanDirsAll o rest (pidInsert m pid ⟨pid, c, true, true⟩)
        else scanDirsAll o rest m

/-- Embeds container.GetAllProcesses (runc.go), over the same inputs as
getRunningProcesses. -/
def getAllProcesses (o : OsOracle) (pids : List Int) (dirNames : List String) : Except ReconcileErr (List (Int × ContainerProcessState)) :=
  match seedPids o pids [] with
  | .error e => .error e
  | .ok m => scanDirsAll o dirNames m

/-- True when some non-reserved directory entry parses to the given pid:
the condition under which the scan loops mark a pid CreatedByRuntime. -/
def dirHasPid (dirNames : List String) (pid : Int) : Bool :=
  dirNames.any fun nm => nm != initPidFilename && atoi nm == some pid

/-- Conditionally set CreatedByRuntime, used to state what the scan loops
do to an already-present entry. -/
def bumpCBR (b : Bool) (v : ContainerProcessState) : ContainerProcessState :=
  if b then { v with CreatedByRuntime := true } else v

/-- The value GetAllProcesses ends up with at one pid, given the map the
scan started from: present entries get CreatedByRuntime flipped when a
directory entry names them and the OS confirms them; absent pids become
zombie entries under the same condition. -/
def allScanView (o : OsOracle) (dirNames : List String) (m : List (Int × ContainerProcessState)) (pid : Int) : Option ContainerProcessState :=
  match pidLookup m pid with
  | some v => some (bumpCBR (dirHasPid dirNames pid && o.processExists pid) v)
  | none =>
    if dirHasPid dirNames pid && o.processExists pid then
      match o.getProcessCommand pid with
      | some c => some ⟨pid, c, true, true⟩
      | none => none
    else none

/-- Distinct error sites of runcRuntime.getMasterFromSocket (ioutils.go).
Each constructor corresponds to one `return nil, errors...` site of the
message-validation part of the function. -/
inductive RecvErr where
  | invalidByteCount (n oobn : Nat)
  | parseControlFailed
  | noControlMessages
  | tooManyControlMessages (k : Nat)
  | parseRightsFailed
  | noFds
  | tooManyFds (k : Nat)
deriving DecidableEq, Repr

/-- The error kind, identifying which validation failed (the code site),
irrespective of the numbers interpolated into the message text. -/
inductive RecvErrKind where
  | invalidByteCount
  | parseControlFailed
  | noControlMessages
  | tooManyControlMessages
  | parseRightsFailed
  | noFds
  | tooManyFds
deriving DecidableEq, Repr

/-- Maps an error to its kind. -/
def RecvErr.kind : RecvErr → RecvErrKind
  | .invalidByteCount _ _ => .invalidByteCount
  | .parseControlFailed => .parseControlFailed
  | .noControlMessages => .noControlMessages
  | .tooManyControlMessages _ => .tooManyControlMessages
  | .parseRightsFailed => .parseRightsFailed
  | .noFds => .noFds
  | .tooManyFds _ => .tooManyFds

/-- Source constant maxNameLen in getMasterFromSocket (ioutils.go). -/
def maxNameLen : Nat := 4096

/-- Source value oobSpace = unix.CmsgSpace(4) in getMasterFromSocket,
evaluated on 64-bit Linux (16-byte cmsghdr plus 4 data bytes, aligned). -/
def oobSpace : Nat := 24

/-- The wrapped file handle built at the end of getMasterFromSocket:
os.NewFile(fd, string(name)). -/
structure MasterFile where
  fd : Nat
  name : List Nat
deriving DecidableEq, Repr

/-- Embeds the message-validation part of runcRuntime.getMasterFromSocket
(ioutils.go lines 46-92), from the successful ReadMsgUnix result onward.
Inputs: the name buffer contents, the returned byte counts n and oobn, and
the outcome the unix package would give for the control data:
`ctl = none` when unix.ParseSocketControlMessage fails, otherwise one entry
per control message, each holding `none` when unix.ParseUnixRights fails on
it and otherwise the file-descriptor list it carries.  Accept and read
failures happen before this message exists and are surfaced verbatim by the
code; the claims concern only the validation below. -/
def getMasterFromSocket (name : List Nat) (n oobn : Nat) (ctl : Option (List (Option (List Nat)))) : Except RecvErr MasterFile :=
  if n ≥ maxNameLen ∨ oobn ≠ oobSpace then .error (.invalidByteCount n oobn)
  else
    match ctl with
    | none => .error .parseControlFailed
    | some msgs =>
      match msgs with
      | [] => .error .noControlMessages
      | [msg] =>
        match msg with
        | none => .error .parseRightsFailed
        | some fds =>
          match fds with
          | [] => .error .noFds
          | [fd] => .ok ⟨fd, name.take n⟩
          | _ => .error (.tooManyFds fds.length)
      | _ => .error (.tooManyControlMessages msgs.length)

/-- Error sites of NewConsole (ioutils.go lines 97-117). -/
inductive ConsoleErr where
  | openFailed
  | ptsnameFailed
  | unlockptFailed
  | chmodFailed
  | chownFailed
deriving DecidableEq, Repr

/-- OS outcomes for the steps of NewConsole: opening /dev/ptmx (giving the
master descriptor), the TIOCGPTN ioctl of ptsname (giving the slave device
number), the TIOCSPTLCK ioctl of unlockpt, and os.Chmod / os.Chown on the
slave path. -/
structure ConsoleOracle where
  openMaster : Except Unit Nat
  ptsnameNum : Except Unit Nat
  unlockptRes : Except Unit Unit
  chmodRes : Except Unit Unit
  chownRes : Except Unit Unit

/-- The slave device path computed by ptsname (ioutils.go). -/
def slavePath (n : Nat) : String :=
  "/dev/pts/" ++ toString n

/-- Embeds NewConsole (ioutils.go).  The second component records every
file descriptor the function closes before returning; the source contains
no Close call, so it is [] on every path. -/
def NewConsole (o : ConsoleOracle) : Except ConsoleErr (Nat × String) × List Nat :=
  match o.openMaster with
  | .error _ => (.error .openFailed, [])
  | .ok master =>
    match o.ptsnameNum with
    | .error _ => (.error .ptsnameFailed, [])
    | .ok num =>
      match o.unlockptRes with
      | .error _ => (.error .unlockptFailed, [])
      | .ok _ =>
        match o.chmodRes with
        | .error _ => (.error .chmodFailed, [])
        | .ok _ =>
          match o.chownRes with
          | .error _ => (.error .chownFailed, [])
          | .ok _ => (.ok (master, slavePath num), [])

/-- The file descriptors a NewConsole result hands back to the caller. -/
def returnedFds : Except ConsoleErr (Nat × String) → List Nat
  | .ok (fd, _) => [fd]
  | .error _ => []

/-- Error outcomes of container.Delete (runc.go lines 131-142). -/
inductive DeleteErr where
  | runcDeleteFailed
  | cleanupFailed
deriving DecidableEq, Repr

/-- Outcomes of the two effects of container.Delete: the synchronous
`runc delete` invocation, and cleanupContainer.
Modelled from the spec: cleanupContainer, declared in this package with its
body outside the given sources, removes the supervisor-owned on-disk
bookkeeping directory for the container id; the model records only whether
it is invoked and whether it succeeds. -/
structure DeleteOracle where
  runcDelete : Except Unit Unit
  cleanupContainer : Except Unit Unit

/-- Embeds container.Delete (runc.go).  The Bool records whether
cleanupContainer was invoked, i.e. whether removal of the on-disk
bookkeeping was attempted. -/
def containerDelete (o : DeleteOracle) : Except DeleteErr Unit × Bool :=
  match o.runcDelete with
  | .error _ => (.error .runcDeleteFailed, false)
  | .ok _ =>
    match o.cleanupContainer with
    | .error _ => (.error .cleanupFailed, true)
    | .ok _ => (.ok (), true)

/-- Embeds process.Delete (runc.go lines 146-151): it only invokes
cleanupProcess (no tool invocation).  The Bool records that the removal of
the process directory was attempted. -/
def processDelete (cleanupProcessRes : Except Unit Unit) : Except DeleteErr Unit × Bool :=
  match cleanupProcessRes with
  | .error _ => (.error .cleanupFailed, true)
  | .ok _ => (.ok (), true)

/-- Which supervisor-owned directories exist on disk during a create
invocation: the container directory made by makeContainerDir, and the
temporary random process directory made by ioutil.TempDir. -/
structure FsState where
  containerDirExists : Bool
  tempProcessDirExists : Bool
deriving DecidableEq, Repr

/-- Error sites of runCreateCommand / startProcess (runc.go 405-433 and
473-533), one constructor per early return. -/
inductive CreateErr where
  | makeContainerDirFailed
  | tempDirFailed
  | hasTerminalFailed
  | setSubreaperFailed
  | stdioSetupFailed
  | startFailed
  | waitFailed
  | readPidFileFailed
  | renameFailed
  | writeInitPidFailed
deriving DecidableEq, Repr

/-- OS and tool outcomes for the steps of runCreateCommand / startProcess,
in source order.  makeContainerDir and the pid-file read have bodies
outside the given sources; they are modelled as oracle outcomes, which is
all the cleanup claims need.  cmdStart is exec.Cmd.Start (spawning runc)
and cmdWait its Wait; a non-zero tool exit surfaces as a cmdWait error.
stdioSetup covers the synchronous stdio path of startProcess
(createConsoleSocket for terminal processes, setupIOWithoutTerminal
otherwise); the asynchronous terminal receive only logs and returns
nothing, so it does not appear. -/
structure CreateOracle where
  makeContainerDir : Except Unit Unit
  tempDir : Except Unit Unit
  hasTerminal : Except Unit Bool
  setSubreaper : Except Unit Unit
  stdioSetup : Except Unit Unit
  cmdStart : Except Unit Unit
  cmdWait : Except Unit Unit
  readPidFile : Except Unit Nat
  renameRes : Except Unit Unit
  writeInitPid : Except Unit Unit

/-- Embeds startProcess (runc.go lines 473-533), threading the on-disk
state.  On success the temporary directory has been renamed to the pid
directory, so tempProcessDirExists becomes false; no failure path removes
any directory (the source has no cleanup call). -/
def startProcess (o : CreateOracle) (s : FsState) : Except CreateErr Nat × FsState :=
  match o.setSubreaper with
  | .error _ => (.error .setSubreaperFailed, s)
  | .ok _ =>
    match o.stdioSetup with
    | .error _ => (.error .stdioSetupFailed, s)
    | .ok _ =>
      match o.cmdStart with
      | .error _ => (.error .startFailed, s)
      | .ok _ =>
        match o.cmdWait with
        | .error _ => (.error .waitFailed, s)
        | .ok _ =>
          match o.readPidFile with
          | .error _ => (.error .readPidFileFailed, s)
          | .ok pid =>
            match o.renameRes with
            | .error _ => (.error .renameFailed, s)
            | .ok _ => (.ok pid, { s with tempProcessDirExists := false })

/-- Embeds runCreateCommand (runc.go lines 405-433), the body of
CreateContainer: make the container directory, make the temporary process
directory, read the bundle config, run startProcess, then write the initpid
file.  The returned FsState is the on-disk state when the function
returns. -/
def runCreateCommand (o : CreateOracle) : Except CreateErr Nat × FsState :=
  match o.makeContainerDir with
  | .error _ => (.error .makeContainerDirFailed, ⟨false, false⟩)
  | .ok _ =>
    match o.tempDir with
    | .error _ => (.error .tempDirFailed, ⟨true, false⟩)
    | .ok _ =>
      match o.hasTerminal with
      | .error _ => (.error .hasTerminalFailed, ⟨true, true⟩)
      | .ok _ =>
        match startProcess o ⟨true, true⟩ with
        | (.error e, s) => (.error e, s)
        | (.ok pid, s) =>
          match o.writeInitPid with
          | .error _ => (.error .writeInitPidFailed, s)
          | .ok _ => (.ok pid, s)

/-- Embeds runtime.StdioPipes (runtime.go): four independently closable
streams, nil members represented as none.  Streams are identified by
opaque numeric handles. -/
structure StdioPipes where
  In : Option Nat
  Out : Option Nat
  Err : Option Nat
  Pty : Option Nat
deriving DecidableEq, Repr

/-- Outcome each underlying stream would return from its Close call; the
source discards these results. -/
structure CloseOracle where
  closeRes : Nat → Except Unit Unit

/-- Embeds StdioPipes.Close (runtime.go lines 583-604).  The receiver is a
possibly-nil pointer, embedded as Option StdioPipes.  Returns the receiver
value after the call, the list of streams on which Close was invoked (in
source order), and the returned error (the source always returns nil). -/
def StdioPipes.Close (o : CloseOracle) (pipes : Option StdioPipes) : Option StdioPipes × List Nat × Option Unit :=
  match pipes with
  | none => (none, [], none)
  | some p =>
    let step := fun (field : Option Nat) (closedSoFar : List Nat) =>
      match field with
      | some s =>
        let _ := o.closeRes s
        (closedSoFar ++ [s], (none : Option Nat))
      | none => (closedSoFar, none)
    let (c1, newIn) := step p.In []
    let (c2, newOut) := step p.Out c1
    let (c3, newErr) := step p.Err c2
    let (c4, newPty) := step p.Pty c3
    (some ⟨newIn, newOut, newErr, newPty⟩, c4, none)

/-- A concrete OS oracle on which every pid exists and every cmdline read
succeeds, used to instantiate the reconciliation theorems. -/
def totalOracle : OsOracle :=
  ⟨fun _ => true, fun _ => some (["c"])⟩

/-- A concrete OS oracle on which no pid exists in /proc although cmdline
reads succeed: the runc tool and the OS disagree. -/
def noExistOracle : OsOracle :=
  ⟨fun _ => false, fun _ => some (["c"])⟩

/-- The streams a first Close call on a Stdio handle set must close: every
non-nil member, once each, in source order. -/
def stdioClosedList : Option StdioPipes → List Nat
  | none => []
  | some q => q.In.toList ++ q.Out.toList ++ q.Err.toList ++ q.Pty.toList

theorem pidLookup_insert_self (m : List (Int × ContainerProcessState)) (pid : Int) (v : ContainerProcessState) :
    pidLookup (pidInsert m pid v) pid = some v := by
  induction m with
  | nil => simp [pidInsert, pidLookup]
  | cons hd tl ih =>
    obtain ⟨k, w⟩ := hd
    by_cases h : k = pid
    · simp [pidInsert, pidLookup, h]
    · simp [pidInsert, pidLookup, h, ih]

theorem pidLookup_insert_of_ne (m : List (Int × ContainerProcessState)) (pid p : Int) (v : ContainerProcessState) (h : p ≠ pid) :
    pidLookup (pidInsert m pid v) p = pidLookup m p := by
  induction m with
  | nil => simp [pidInsert, pidLookup, Ne.symm h]
  | cons hd tl ih =>
    obtain ⟨k, w⟩ := hd
    by_cases hk : k = pid
    · subst hk
      simp [pidInsert, pidLookup, Ne.symm h]
    · simp only [pidInsert, if_neg hk, pidLookup]
      by_cases hkp : k = p
      · simp [hkp]
      · simp [hkp, ih]

theorem pidKeys_insert_mem (m : List (Int × ContainerProcessState)) (pid p : Int) (v : ContainerProcessState) :
    p ∈ pidKeys (pidInsert m pid v) ↔ p = pid ∨ p ∈ pidKeys m := by
  induction m with
  | nil => simp [pidInsert, pidKeys]
  | cons hd tl ih =>
    obtain ⟨k, w⟩ := hd
    by_cases hk : k = pid
    · subst hk
      simp [pidInsert, pidKeys]
    · simp only [pidKeys] at ih
      simp only [pidInsert, if_neg hk, pidKeys, List.map_cons, List.mem_cons]
      rw [ih]
      tauto

theorem pidKeys_insert_nodup (m : List (Int × ContainerProcessState)) (pid : Int) (v : ContainerProcessState) (h : (pidKeys m).Nodup) :
    (pidKeys (pidInsert m pid v)).Nodup := by
  induction m with
  | nil => simp [pidInsert, pidKeys]
  | cons hd tl ih =>
    obtain ⟨k, w⟩ := hd
    simp only [pidKeys, List.map_cons, List.nodup_cons] at h
    by_cases hk : k = pid
    · subst hk
      simpa [pidInsert, pidKeys, List.nodup_cons] using h
    · simp only [pidInsert, if_neg hk, pidKeys, List.map_cons, List.nodup_cons]
      refine ⟨?_, ih h.2⟩
      intro hmem
      have hmem2 : k ∈ pidKeys (pidInsert tl pid v) := hmem
      rcases (pidKeys_insert_mem tl pid k v).mp hmem2 with h1 | h1
      · exact hk h1
      · exact h.1 h1

theorem pidKeys_setCBR (m : List (Int × ContainerProcessState)) (pid : Int) :
    pidKeys (setCreatedByRuntime m pid) = pidKeys m := by
  induction m with
  | nil => rfl
  | cons hd tl ih =>
    obtain ⟨k, w⟩ := hd
    simp only [pidKeys] at ih
    by_cases hk : k = pid
    · simp [setCreatedByRuntime, hk, pidKeys]
    · simp [setCreatedByRuntime, hk, pidKeys, ih]

theorem pidLookup_setCBR_self (m : List (Int × ContainerProcessState)) (pid : Int) :
    pidLookup (setCreatedByRuntime m pid) pid = (pidLookup m pid).map fun v => { v with CreatedByRuntime := true } := by
  induction m with
  | nil => simp [setCreatedByRuntime, pidLookup]
  | cons hd tl ih =>
    obtain ⟨k, w⟩ := hd
    by_cases hk : k = pid
    · simp [setCreatedByRuntime, hk, pidLookup]
    · simp [setCreatedByRuntime, hk, pidLookup, ih]

theorem pidLookup_setCBR_of_ne (m : List (Int × ContainerProcessState)) (pid p : Int) (h : p ≠ pid) :
    pidLookup (setCreatedByRuntime m pid) p = pidLookup m p := by
  induction m with
  | nil => simp [setCreatedByRuntime, pidLookup]
  | cons hd tl ih =>
    obtain ⟨k, w⟩ := hd
    by_cases hk : k = pid
    · subst hk
      simp [setCreatedByRuntime, pidLookup, Ne.symm h]
    · simp only [setCreatedByRuntime, if_neg hk, pidLookup]
      by_cases hkp : k = p
      · simp [hkp]
      · simp [hkp, ih]

theorem bumpCBR_false (v : ContainerProcessState) : bumpCBR false v = v := rfl

theorem bumpCBR_true (v : ContainerProcessState) : bumpCBR true v = { v with CreatedByRuntime := true } := rfl

theorem bumpCBR_of_cbr_true (b : Bool) (v : ContainerProcessState) (h : v.CreatedByRuntime = true) :
    bumpCBR b v = v := by
  cases b
  · rfl
  · cases v
    simp_all [bumpCBR]

theorem dirHasPid_cons (nm : String) (rest : List String) (pid : Int) :
    dirHasPid (nm :: rest) pid = ((nm != initPidFilename && atoi nm == some pid) || dirHasPid rest pid) := by
  simp [dirHasPid]

theorem dirHasPid_cons_init (rest : List String) (pid : Int) :
    dirHasPid (initPidFilename :: rest) pid = dirHasPid rest pid := by
  simp [dirHasPid_cons]

theorem dirHasPid_cons_self (nm : String) (rest : List String) (pid : Int) (h1 : nm ≠ initPidFilename) (h2 : atoi nm = some pid) :
    dirHasPid (nm :: rest) pid = true := by
  simp [dirHasPid_cons, h1, h2]

theorem dirHasPid_cons_other (nm : String) (rest : List String) (pid pid0 : Int) (h2 : atoi nm = some pid0) (hne : pid ≠ pid0) :
    dirHasPid (nm :: rest) pid = dirHasPid rest pid := by
  simp [dirHasPid_cons, h2, Ne.symm hne]

theorem dirHasPid_nil (pid : Int) : dirHasPid [] pid = false := rfl

theorem seedPids_lookup (o : OsOracle) (pids : List Int) (acc m : List (Int × ContainerProcessState))
    (hok : seedPids o pids acc = .ok m) (pid : Int) :
    pidLookup m pid = if pid ∈ pids then seedVal o pid else pidLookup acc pid := by
  induction pids generalizing acc with
  | nil =>
    simp only [seedPids] at hok
    cases hok
    simp
  | cons p rest ih =>
    simp only [seedPids] at hok
    cases hc : o.getProcessCommand p with
    | none => rw [hc] at hok; exact absurd hok (by simp)
    | some c =>
      rw [hc] at hok
      rw [ih _ hok]
      by_cases hmem : pid ∈ rest
      · simp [hmem]
      · by_cases hp : pid = p
        · subst hp
          simp [hmem, pidLookup_insert_self, seedVal, hc]
        · simp [hmem, hp, pidLookup_insert_of_ne acc p pid _ hp]

theorem seedPids_ok (o : OsOracle) (pids : List Int) (acc : List (Int × ContainerProcessState))
    (hcmd : ∀ p ∈ pids, (o.getProcessCommand p).isSome) :
    ∃ m, seedPids o pids acc = .ok m := by
  induction pids generalizing acc with
  | nil => exact ⟨acc, rfl⟩
  | cons p rest ih =>
    have h1 : (o.getProcessCommand p).isSome := hcmd p (List.mem_cons_self p rest)
    cases hc : o.getProcessCommand p with
    | none => rw [hc] at h1; simp at h1
    | some c =>
      simp only [seedPids, hc]
      exact ih _ (fun q hq => hcmd q (List.mem_cons_of_mem p hq))

theorem seedPids_keys_mem (o : OsOracle) (pids : List Int) (acc m : List (Int × ContainerProcessState))
    (hok : seedPids o pids acc = .ok m) (p : Int) :
    p ∈ pidKeys m ↔ p ∈ pids ∨ p ∈ pidKeys acc := by
  induction pids generalizing acc with
  | nil =>
    simp only [seedPids] at hok
    cases hok
    simp
  | cons q rest ih =>
    simp only [seedPids] at hok
    cases hc : o.getProcessCommand q with
    | none => rw [hc] at hok; exact absurd hok (by simp)
    | some c =>
      rw [hc] at hok
      rw [ih _ hok, pidKeys_insert_mem]
      simp only [List.mem_cons]
      tauto

theorem seedPids_keys_nodup (o : OsOracle) (pids : List Int) (acc m : List (Int × ContainerProcessState))
    (hok : seedPids o pids acc = .ok m) (hacc : (pidKeys acc).Nodup) :
    (pidKeys m).Nodup := by
  induction pids generalizing acc with
  | nil =>
    simp only [seedPids] at hok
    cases hok
    exact hacc
  | cons q rest ih =>
    simp only [seedPids] at hok
    cases hc : o.getProcessCommand q with
    | none => rw [hc] at hok; exact absurd hok (by simp)
    | some c =>
      rw [hc] at hok
      exact ih _ hok (pidKeys_insert_nodup _ _ _ hacc)

theorem scanRun_lookup (names : List String) (m mr : List (Int × ContainerProcessState))
    (hok : scanDirsRunning names m = .ok mr) (pid : Int) :
    pidLookup mr pid = (pidLookup m pid).map (bumpCBR (dirHasPid names pid)) := by
  induction names generalizing m with
  | nil =>
    simp only [scanDirsRunning] at hok
    cases hok
    cases hl : pidLookup mr pid <;> simp [dirHasPid_nil, bumpCBR_false]
  | cons nm rest ih =>
    simp only [scanDirsRunning] at hok
    by_cases hinit : nm = initPidFilename
    · rw [if_pos hinit] at hok
      rw [ih _ hok, hinit, dirHasPid_cons_init]
    · rw [if_neg hinit] at hok
      cases hp : atoi nm with
      | none => rw [hp] at hok; exact absurd hok (by simp)
      | some pid0 =>
        rw [hp] at hok
        rw [ih _ hok]
        by_cases hpp : pid = pid0
        · subst hpp
          rw [pidLookup_setCBR_self, dirHasPid_cons_self nm rest pid hinit hp]
          cases hl : pidLookup m pid with
          | none => simp
          | some v => simp [bumpCBR_true, bumpCBR_of_cbr_true]
        · rw [pidLookup_setCBR_of_ne m pid0 pid hpp,
            dirHasPid_cons_other nm rest pid pid0 hp hpp]

theorem scanRun_ok (names : List String) (m : List (Int × ContainerProcessState))
    (hparse : ∀ nm ∈ names, nm ≠ initPidFilename → (atoi nm).isSome) :
    ∃ mr, scanDirsRunning names m = .ok mr := by
  induction names generalizing m with
  | nil => exact ⟨m, rfl⟩
  | cons nm rest ih =>
    have hrest : ∀ q ∈ rest, q ≠ initPidFilename → (atoi q).isSome :=
      fun q hq h => hparse q (List.mem_cons_of_mem nm hq) h
    by_cases hinit : nm = initPidFilename
    · simp only [scanDirsRunning, if_pos hinit]
      exact ih _ hrest
    · have h1 := hparse nm (List.mem_cons_self nm rest) hinit
      cases hp : atoi nm with
      | none => rw [hp] at h1; simp at h1
      | some pid0 =>
        simp only [scanDirsRunning, if_neg hinit, hp]
        exact ih _ hrest

theorem scanRun_keys (names : List String) (m mr : List (Int × ContainerProcessState))
    (hok : scanDirsRunning names m = .ok mr) :
    pidKeys mr = pidKeys m := by
  induction names generalizing m with
  | nil =>
    simp only [scanDirsRunning] at hok
    cases hok
    rfl
  | cons nm rest ih =>
    simp only [scanDirsRunning] at hok
    by_cases hinit : nm = initPidFilename
    · rw [if_pos hinit] at hok
      exact ih _ hok
    · rw [if_neg hinit] at hok
      cases hp : atoi nm with
      | none => rw [hp] at hok; exact absurd hok (by simp)
      | some pid0 =>
        rw [hp] at hok
        rw [ih _ hok, pidKeys_setCBR]

theorem scanRun_err (names : List String) (m : List (Int × ContainerProcessState)) (bad : String)
    (hmem : bad ∈ names) (hinit : bad ≠ initPidFilename) (hbad : atoi bad = none) :
    ∃ nm, scanDirsRunning names m = .error (.parsePidFailed nm) := by
  induction names generalizing m with
  | nil => cases hmem
  | cons nm rest ih =>
    by_cases hi : nm = initPidFilename
    · have hm2 : bad ∈ rest := by
        rcases List.mem_cons.mp hmem with h | h
        · exact absurd (h.trans hi) hinit
        · exact h
      simp only [scanDirsRunning, if_pos hi]
      exact ih _ hm2
    · cases hp : atoi nm with
      | none => exact ⟨nm, by simp [scanDirsRunning, hi, hp]⟩
      | some pid0 =>
        have hm2 : bad ∈ rest := by
          rcases List.mem_cons.mp hmem with h | h
          · subst h
            rw [hbad] at hp
            cases hp
          · exact h
        simp only [scanDirsRunning, if_neg hi, hp]
        exact ih _ hm2

theorem scanRun_skip_init (l1 l2 : List String) (m : List (Int × ContainerProcessState)) :
    scanDirsRunning (l1 ++ initPidFilename :: l2) m = scanDirsRunning (l1 ++ l2) m := by
  induction l1 generalizing m with
  | nil => simp [scanDirsRunning]
  | cons nm rest ih =>
    simp only [List.cons_append, scanDirsRunning]
    by_cases hi : nm = initPidFilename
    · simp [hi, ih]
    · simp only [if_neg hi]
      cases hp : atoi nm with
      | none => rfl
      | some pid0 => simp [ih]

theorem allScanView_congr_lookup (o : OsOracle) (names : List String) (m m2 : List (Int × ContainerProcessState)) (pid : Int)
    (h : pidLookup m2 pid = pidLookup m pid) :
    allScanView o names m2 pid = allScanView o names m pid := by
  simp only [allScanView, h]

theorem allScanView_cons_init (o : OsOracle) (rest : List String) (m : List (Int × ContainerProcessState)) (pid : Int) :
    allScanView o (initPidFilename :: rest) m pid = allScanView o rest m pid := by
  simp only [allScanView, dirHasPid_cons_init]

theorem allScanView_cons_other (o : OsOracle) (nm : String) (rest : List String) (m : List (Int × ContainerProcessState))
    (pid pid0 : Int) (hp : atoi nm = some pid0) (hpp : pid ≠ pid0) :
    allScanView o (nm :: rest) m pid = allScanView o rest m pid := by
  simp only [allScanView, dirHasPid_cons_other nm rest pid pid0 hp hpp]

theorem allScanView_cons_noexist (o : OsOracle) (nm : String) (rest : List String) (m : List (Int × ContainerProcessState))
    (pid : Int) (hex : o.processExists pid = false) :
    allScanView o (nm :: rest) m pid = allScanView o rest m pid := by
  simp only [allScanView, hex, Bool.and_false]

theorem allScanView_lookup_cbr_true (o : OsOracle) (names : List String) (m : List (Int × ContainerProcessState))
    (pid : Int) (v : ContainerProcessState) (hl : pidLookup m pid = some v) (hcbr : v.CreatedByRuntime = true) :
    allScanView o names m pid = some v := by
  simp only [allScanView, hl]
  rw [bumpCBR_of_cbr_true _ _ hcbr]

theorem allScanView_unfold_some (o : OsOracle) (names : List String) (m : List (Int × ContainerProcessState))
    (pid : Int) (v : ContainerProcessState) (hl : pidLookup m pid = some v) :
    allScanView o names m pid = some (bumpCBR (dirHasPid names pid && o.processExists pid) v) := by
  simp only [allScanView, hl]

theorem scanAll_lookup (o : OsOracle) (names : List String) (m ma : List (Int × ContainerProcessState))
    (hok : scanDirsAll o names m = .ok ma) (pid : Int) :
    pidLookup ma pid = allScanView o names m pid := by
  induction names generalizing m with
  | nil =>
    simp only [scanDirsAll] at hok
    cases hok
    cases hl : pidLookup ma pid with
    | none => simp [allScanView, hl, dirHasPid_nil]
    | some v => simp [allScanView, hl, dirHasPid_nil, bumpCBR_false]
  | cons nm rest ih =>
    simp only [scanDirsAll] at hok
    by_cases hinit : nm = initPidFilename
    · rw [if_pos hinit] at hok
      rw [ih _ hok, hinit, allScanView_cons_init]
    · rw [if_neg hinit] at hok
      cases hp : atoi nm with
      | none =>
        simp only [hp] at hok
        exact absurd hok (by simp)
      | some pid0 =>
        simp only [hp] at hok
        cases hex : o.processExists pid0 with
        | false =>
          simp [hex] at hok
          rw [ih _ hok]
          by_cases hpp : pid = pid0
          · subst hpp
            exact (allScanView_cons_noexist o nm rest m pid hex).symm
          · exact (allScanView_cons_other o nm rest m pid pid0 hp hpp).symm
        | true =>
          simp [hex] at hok
          cases hl : pidLookup m pid0 with
          | some v =>
            rw [hl] at hok
            rw [ih _ hok]
            by_cases hpp : pid = pid0
            · subst hpp
              have hl2 : pidLookup (setCreatedByRuntime m pid) pid = some { v with CreatedByRuntime := true } := by
                rw [pidLookup_setCBR_self, hl]
                rfl
              rw [allScanView_lookup_cbr_true o rest _ pid _ hl2 rfl]
              rw [allScanView_unfold_some o (nm :: rest) m pid v hl]
              rw [dirHasPid_cons_self nm rest pid hinit hp, hex]
              rfl
            · rw [allScanView_congr_lookup o rest m (setCreatedByRuntime m pid0) pid
                (pidLookup_setCBR_of_ne m pid0 pid hpp)]
              exact (allScanView_cons_other o nm rest m pid pid0 hp hpp).symm
          | none =>
            rw [hl] at hok
            cases hc : o.getProcessCommand pid0 with
            | none => rw [hc] at hok; exact absurd hok (by simp)
            | some c =>
              rw [hc] at hok
              rw [ih _ hok]
              by_cases hpp : pid = pid0
              · subst hpp
                have hl2 : pidLookup (pidInsert m pid ⟨pid, c, true, true⟩) pid = some ⟨pid, c, true, true⟩ :=
                  pidLookup_insert_self m pid _
                rw [allScanView_lookup_cbr_true o rest _ pid _ hl2 rfl]
                simp only [allScanView, hl, dirHasPid_cons_self nm rest pid hinit hp, hex,
                  Bool.and_self, if_true, hc]
              · rw [allScanView_congr_lookup o rest m (pidInsert m pid0 ⟨pid0, c, true, true⟩) pid
                  (pidLookup_insert_of_ne m pid0 pid _ hpp)]
                exact (allScanView_cons_other o nm rest m pid pid0 hp hpp).symm

theorem scanAll_ok (o : OsOracle) (names : List String) (m : List (Int × ContainerProcessState))
    (hcmd : ∀ pid : Int, (o.getProcessCommand pid).isSome)
    (hparse : ∀ nm ∈ names, nm ≠ initPidFilename → (atoi nm).isSome) :
    ∃ ma, scanDirsAll o names m = .ok ma := by
  induction names generalizing m with
  | nil => exact ⟨m, rfl⟩
  | cons nm rest ih =>
    have hrest : ∀ q ∈ rest, q ≠ initPidFilename → (atoi q).isSome :=
      fun q hq h => hparse q (List.mem_cons_of_mem nm hq) h
    by_cases hinit : nm = initPidFilename
    · simp only [scanDirsAll, if_pos hinit]
      exact ih _ hrest
    · have h1 := hparse nm (List.mem_cons_self nm rest) hinit
      cases hp : atoi nm with
      | none => rw [hp] at h1; simp at h1
      | some pid0 =>
        simp only [scanDirsAll, if_neg hinit, hp]
        cases hex : o.processExists pid0 with
        | false => simp only [Bool.false_eq_true, if_false]; exact ih _ hrest
        | true =>
          simp only [if_true]
          cases hl : pidLookup m pid0 with
          | some v => exact ih _ hrest
          | none =>
            have h2 := hcmd pid0
            cases hc : o.getProcessCommand pid0 with
            | none => rw [hc] at h2; simp at h2
            | some c => exact ih _ hrest

theorem scanAll_err (o : OsOracle) (names : List String) (m : List (Int × ContainerProcessState)) (bad : String)
    (hcmd : ∀ pid : Int, (o.getProcessCommand pid).isSome)
    (hmem : bad ∈ names) (hinit : bad ≠ initPidFilename) (hbad : atoi bad = none) :
    ∃ nm, scanDirsAll o names m = .error (.parsePidFailed nm) := by
  induction names generalizing m with
  | nil => cases hmem
  | cons nm rest ih =>
    by_cases hi : nm = initPidFilename
    · have hm2 : bad ∈ rest := by
        rcases List.mem_cons.mp hmem with h | h
        · exact absurd (h.trans hi) hinit
        · exact h
      simp only [scanDirsAll, if_pos hi]
      exact ih _ hm2
    · cases hp : atoi nm with
      | none => exact ⟨nm, by simp [scanDirsAll, hi, hp]⟩
      | some pid0 =>
        have hm2 : bad ∈ rest := by
          rcases List.mem_cons.mp hmem with h | h
          · subst h
            rw [hbad] at hp
            cases hp
          · exact h
        simp only [scanDirsAll, if_neg hi, hp]
        cases hex : o.processExists pid0 with
        | false => simp only [Bool.false_eq_true, if_false]; exact ih _ hm2
        | true =>
          simp only [if_true]
          cases hl : pidLookup m pid0 with
          | some v => exact ih _ hm2
          | none =>
            have h2 := hcmd pid0
            cases hc : o.getProcessCommand pid0 with
            | none => rw [hc] at h2; simp at h2
            | some c => exact ih _ hm2

theorem scanAll_skip_init (o : OsOracle) (l1 l2 : List String) (m : List (Int × ContainerProcessState)) :
    scanDirsAll o (l1 ++ initPidFilename :: l2) m = scanDirsAll o (l1 ++ l2) m := by
  induction l1 generalizing m with
  | nil => simp [scanDirsAll]
  | cons nm rest ih =>
    simp only [List.cons_append, scanDirsAll]
    by_cases hi : nm = initPidFilename
    · simp [hi, ih]
    · simp only [if_neg hi]
      cases hp : atoi nm with
      | none => rfl
      | some pid0 =>
        cases hex : o.processExists pid0 with
        | false => simp [ih]
        | true =>
          cases hl : pidLookup m pid0 with
          | some v => simp [hl, ih]
          | none =>
            cases hc : o.getProcessCommand pid0 with
            | none => simp [hl, hc, hex]
            | some c => simp [hl, hc, ih]

/-- C6: for every authoritative running-pid set and every directory listing
whose non-reserved names all parse as integers (and whose cmdline reads
succeed), GetRunningProcesses returns exactly one entry per pid in the
running set, each with IsZombie false and that pids command line, and with
CreatedByRuntime true exactly when a pid-directory named after that pid
exists. -/
theorem claim6_running_view (o : OsOracle) (pids : List Int) (dirNames : List String)
    (hcmd : ∀ pid ∈ pids, (o.getProcessCommand pid).isSome)
    (hparse : ∀ nm ∈ dirNames, nm ≠ initPidFilename → (atoi nm).isSome) :
    ∃ m, getRunningProcesses o pids dirNames = .ok m ∧
      (pidKeys m).Nodup ∧
      (∀ pid, pid ∈ pidKeys m ↔ pid ∈ pids) ∧
      (∀ pid c, pid ∈ pids → o.getProcessCommand pid = some c →
        pidLookup m pid = some ⟨pid, c, dirHasPid dirNames pid, false⟩) := by
  obtain ⟨m0, hm0⟩ := seedPids_ok o pids [] hcmd
  obtain ⟨mr, hmr⟩ := scanRun_ok dirNames m0 hparse
  refine ⟨mr, ?_, ?_, ?_, ?_⟩
  · simp only [getRunningProcesses, hm0]
    exact hmr
  · rw [scanRun_keys dirNames m0 mr hmr]
    exact seedPids_keys_nodup o pids [] m0 hm0 (by simp [pidKeys])
  · intro pid
    rw [scanRun_keys dirNames m0 mr hmr]
    rw [seedPids_keys_mem o pids [] m0 hm0 pid]
    simp [pidKeys]
  · intro pid c hpid hc
    rw [scanRun_lookup dirNames m0 mr hmr pid]
    rw [seedPids_lookup o pids [] m0 hm0 pid]
    rw [if_pos hpid]
    simp only [seedVal, hc]
    cases hd : dirHasPid dirNames pid <;> simp [bumpCBR_false, bumpCBR_true]

/-- C6 witness: with running set 10 and 11, and the on-disk entries being
the pid-directory 11 plus the reserved filename, the running view has
exactly the keys 10 and 11, where pid 11 is CreatedByRuntime (there is a
directory for it) and pid 10 is not. -/
theorem claim6_witness :
    ∃ m, getRunningProcesses totalOracle [10, 11] ["11", "initpid"] = .ok m ∧
      (pidKeys m).Nodup ∧
      (∀ pid, pid ∈ pidKeys m ↔ pid ∈ ([10, 11] : List Int)) ∧
      (∀ pid c, pid ∈ ([10, 11] : List Int) → totalOracle.getProcessCommand pid = some c →
        pidLookup m pid = some ⟨pid, c, dirHasPid ["11", "initpid"] pid, false⟩) :=
  claim6_running_view totalOracle [10, 11] ["11", "initpid"] (by decide) (by decide)

/-- C7: on inputs where every non-reserved directory name parses and every
cmdline read succeeds, every pid-directory whose pid is absent from the
running set but confirmed by the OS appears in the all-processes view as a
zombie created by the runtime, with its fetched command line. -/
theorem claim7_all_view (o : OsOracle) (pids : List Int) (dirNames : List String)
    (hcmd : ∀ pid : Int, (o.getProcessCommand pid).isSome)
    (hparse : ∀ nm ∈ dirNames, nm ≠ initPidFilename → (atoi nm).isSome) :
    ∃ m, getAllProcesses o pids dirNames = .ok m ∧
      ∀ pid c, pid ∉ pids → dirHasPid dirNames pid = true → o.processExists pid = true →
        o.getProcessCommand pid = some c →
        pidLookup m pid = some ⟨pid, c, true, true⟩ := by
  obtain ⟨m0, hm0⟩ := seedPids_ok o pids [] (fun p _ => hcmd p)
  obtain ⟨ma, hma⟩ := scanAll_ok o dirNames m0 hcmd hparse
  refine ⟨ma, ?_, ?_⟩
  · simp only [getAllProcesses, hm0]
    exact hma
  · intro pid c hnp hd hex hc
    rw [scanAll_lookup o dirNames m0 ma hma pid]
    have hl0 : pidLookup m0 pid = none := by
      rw [seedPids_lookup o pids [] m0 hm0 pid, if_neg hnp]
      rfl
    simp [allScanView, hl0, hd, hex, hc]

/-- C7 witness: with running set 10 and 11, directories 11 and 12, and the
OS confirming pid 12, the all-processes view contains pid 12 as a zombie
created by the runtime. -/
theorem claim7_witness :
    ∃ m, getAllProcesses totalOracle [10, 11] ["11", "12"] = .ok m ∧
      ∀ pid c, pid ∉ ([10, 11] : List Int) → dirHasPid ["11", "12"] pid = true →
        totalOracle.processExists pid = true →
        totalOracle.getProcessCommand pid = some c →
        pidLookup m pid = some ⟨pid, c, true, true⟩ :=
  claim7_all_view totalOracle [10, 11] ["11", "12"] (fun _ => rfl) (by decide)

/-- C2 counterexample: with running set containing only pid 10, the single
pid-directory 10, and an OS oracle on which pid 10 does not exist in /proc,
the running view marks pid 10 CreatedByRuntime while the all view does not:
the two views contain pid 10 with different values, refuting the claim for
arbitrary input triples. -/
theorem claim2_counterexample :
    getRunningProcesses noExistOracle [10] ["10"] = .ok [(10, ⟨10, ["c"], true, false⟩)] ∧
    getAllProcesses noExistOracle [10] ["10"] = .ok [(10, ⟨10, ["c"], false, false⟩)] ∧
    (⟨10, ["c"], true, false⟩ : ContainerProcessState) ≠ ⟨10, ["c"], false, false⟩ :=
  ⟨rfl, rfl, by decide⟩

/-- C2 amended: when the OS oracle confirms every pid of the authoritative
running set (the tool and the OS agree on the running pids), the two views
assign equal state to every pid they both contain. -/
theorem claim2_amended (o : OsOracle) (pids : List Int) (dirNames : List String)
    (m1 m2 : List (Int × ContainerProcessState)) (pid : Int) (s1 s2 : ContainerProcessState)
    (hex : ∀ p ∈ pids, o.processExists p = true)
    (h1 : getRunningProcesses o pids dirNames = .ok m1)
    (h2 : getAllProcesses o pids dirNames = .ok m2)
    (l1 : pidLookup m1 pid = some s1)
    (l2 : pidLookup m2 pid = some s2) :
    s1 = s2 := by
  unfold getRunningProcesses at h1
  unfold getAllProcesses at h2
  cases hs : seedPids o pids [] with
  | error e =>
    rw [hs] at h1
    exact absurd h1 (by simp)
  | ok m0 =>
    rw [hs] at h1
    rw [hs] at h2
    have hr := scanRun_lookup dirNames m0 m1 h1 pid
    have ha := scanAll_lookup o dirNames m0 m2 h2 pid
    rw [l1] at hr
    rw [l2] at ha
    cases hl0 : pidLookup m0 pid with
    | none =>
      rw [hl0] at hr
      exact absurd hr (by simp)
    | some v =>
      have hmem : pid ∈ pids := by
        by_contra hnp
        have hseed := seedPids_lookup o pids [] m0 hs pid
        rw [if_neg hnp] at hseed
        rw [hl0] at hseed
        exact absurd hseed.symm (by simp [pidLookup])
      have hexp := hex pid hmem
      rw [hl0] at hr
      rw [allScanView_unfold_some o dirNames m0 pid v hl0] at ha
      rw [hexp, Bool.and_true] at ha
      have hr2 : s1 = bumpCBR (dirHasPid dirNames pid) v := by simpa using hr
      have ha2 : s2 = bumpCBR (dirHasPid dirNames pid) v := by simpa using ha
      rw [hr2, ha2]

/-- C2 witness for the amended theorem: on an agreeing oracle with running
set 10 and pid-directory 10, both views hold the same state for pid 10. -/
theorem claim2_witness :
    (⟨10, ["c"], true, false⟩ : ContainerProcessState) = ⟨10, ["c"], true, false⟩ :=
  claim2_amended totalOracle [10] ["10"]
    [(10, ⟨10, ["c"], true, false⟩)] [(10, ⟨10, ["c"], true, false⟩)] 10
    ⟨10, ["c"], true, false⟩ ⟨10, ["c"], true, false⟩
    (by decide) rfl rfl rfl rfl

/-- C8: a directory entry that is not the reserved filename and does not
parse as an integer makes both views fail with the parse error (no silent
skip), while a reserved-filename entry anywhere in the listing is skipped
without error by both views. -/
theorem claim8_parse_errors (o : OsOracle) (pids : List Int) (dirNames : List String) (bad : String)
    (hcmd : ∀ pid : Int, (o.getProcessCommand pid).isSome)
    (hmem : bad ∈ dirNames) (hinit : bad ≠ initPidFilename) (hbad : atoi bad = none) :
    (∃ nm, getRunningProcesses o pids dirNames = .error (.parsePidFailed nm)) ∧
    (∃ nm, getAllProcesses o pids dirNames = .error (.parsePidFailed nm)) ∧
    (∀ l1 l2 : List String,
      getRunningProcesses o pids (l1 ++ initPidFilename :: l2) = getRunningProcesses o pids (l1 ++ l2) ∧
      getAllProcesses o pids (l1 ++ initPidFilename :: l2) = getAllProcesses o pids (l1 ++ l2)) := by
  obtain ⟨m0, hm0⟩ := seedPids_ok o pids [] (fun p _ => hcmd p)
  refine ⟨?_, ?_, ?_⟩
  · obtain ⟨nm, hnm⟩ := scanRun_err dirNames m0 bad hmem hinit hbad
    refine ⟨nm, ?_⟩
    simp only [getRunningProcesses, hm0]
    exact hnm
  · obtain ⟨nm, hnm⟩ := scanAll_err o dirNames m0 bad hcmd hmem hinit hbad
    refine ⟨nm, ?_⟩
    simp only [getAllProcesses, hm0]
    exact hnm
  · intro l1 l2
    constructor
    · simp only [getRunningProcesses, hm0]
      exact scanRun_skip_init l1 l2 m0
    · simp only [getAllProcesses, hm0]
      exact scanAll_skip_init o l1 l2 m0

/-- C8 witness: the single entry abc (not the reserved name, not an
integer) makes both views error, and inserting the reserved name anywhere
leaves both views unchanged. -/
theorem claim8_witness :
    (∃ nm, getRunningProcesses totalOracle [] ["abc"] = .error (.parsePidFailed nm)) ∧
    (∃ nm, getAllProcesses totalOracle [] ["abc"] = .error (.parsePidFailed nm)) ∧
    (∀ l1 l2 : List String,
      getRunningProcesses totalOracle [] (l1 ++ initPidFilename :: l2) = getRunningProcesses totalOracle [] (l1 ++ l2) ∧
      getAllProcesses totalOracle [] (l1 ++ initPidFilename :: l2) = getAllProcesses totalOracle [] (l1 ++ l2)) :=
  claim8_parse_errors totalOracle [] ["abc"] ("abc") (fun _ => rfl) (by decide) (by decide) (by decide)

/-- C1 counterexample: when the runc delete invocation fails, container
Delete returns the wrapped error immediately and cleanupContainer is never
invoked (the recorded flag is false), even though the cleanup itself would
have succeeded: the on-disk bookkeeping directory is not removed. -/
theorem claim1_counterexample :
    containerDelete ⟨Except.error (), Except.ok ()⟩ = (Except.error DeleteErr.runcDeleteFailed, false) :=
  rfl

/-- C1 amended: container Delete removes the on-disk bookkeeping only when
the tool invocation succeeds; when the tool fails, the error returns with
the bookkeeping untouched.  process Delete, which invokes no tool, always
attempts the removal. -/
theorem claim1_amended (o : DeleteOracle) (c : Except Unit Unit) :
    (o.runcDelete = Except.ok () → (containerDelete o).2 = true) ∧
    (∀ e, o.runcDelete = Except.error e → containerDelete o = (Except.error DeleteErr.runcDeleteFailed, false)) ∧
    (processDelete c).2 = true := by
  refine ⟨?_, ?_, ?_⟩
  · intro h
    cases hc : o.cleanupContainer <;> simp [containerDelete, h, hc]
  · intro e h
    simp [containerDelete, h]
  · cases c <;> rfl

/-- C1 witness: concrete instances of the three amended statements. -/
theorem claim1_witness :
    (containerDelete ⟨Except.ok (), Except.ok ()⟩).2 = true ∧
    containerDelete ⟨Except.error (), Except.ok ()⟩ = (Except.error DeleteErr.runcDeleteFailed, false) ∧
    (processDelete (Except.error ())).2 = true :=
  ⟨(claim1_amended ⟨Except.ok (), Except.ok ()⟩ (Except.error ())).1 rfl,
   (claim1_amended ⟨Except.error (), Except.ok ()⟩ (Except.error ())).2.1 () rfl,
   (claim1_amended ⟨Except.ok (), Except.ok ()⟩ (Except.error ())).2.2⟩

/-- C3 counterexample: a create invocation in which the container directory
and the temporary process directory were made and the tool invocation then
exits non-zero (cmdWait fails) returns the error while both directories
still exist: the partial on-disk state is not cleaned up. -/
theorem claim3_counterexample :
    runCreateCommand ⟨Except.ok (), Except.ok (), Except.ok true, Except.ok (), Except.ok (),
        Except.ok (), Except.error (), Except.ok 42, Except.ok (), Except.ok ()⟩ =
      (Except.error CreateErr.waitFailed, ⟨true, true⟩) :=
  rfl

/-- C3 amended: when the tool invocation fails after the directories were
created, runCreateCommand returns the error with the container directory
and the temporary process directory both left on disk; no cleanup runs on
this failure path. -/
theorem claim3_amended (o : CreateOracle) (b : Bool)
    (h1 : o.makeContainerDir = Except.ok ())
    (h2 : o.tempDir = Except.ok ())
    (h3 : o.hasTerminal = Except.ok b)
    (h4 : o.setSubreaper = Except.ok ())
    (h5 : o.stdioSetup = Except.ok ())
    (h6 : o.cmdStart = Except.ok ())
    (h7 : o.cmdWait = Except.error ()) :
    runCreateCommand o = (Except.error CreateErr.waitFailed, ⟨true, true⟩) := by
  simp [runCreateCommand, startProcess, h1, h2, h3, h4, h5, h6, h7]

/-- C3 witness: the amended theorem at a concrete oracle whose tool
invocation fails. -/
theorem claim3_witness :
    runCreateCommand ⟨Except.ok (), Except.ok (), Except.ok false, Except.ok (), Except.ok (),
        Except.ok (), Except.error (), Except.ok 7, Except.ok (), Except.ok ()⟩ =
      (Except.error CreateErr.waitFailed, ⟨true, true⟩) :=
  claim3_amended _ false rfl rfl rfl rfl rfl rfl rfl

/-- C4 counterexample: the master pseudoterminal opens as descriptor 5 and
ptsname then fails; NewConsole returns the error having closed nothing (the
closed-descriptor list is empty) and handing nothing back (the error result
carries no file), so descriptor 5 is neither closed nor returned. -/
theorem claim4_counterexample :
    NewConsole ⟨Except.ok 5, Except.error (), Except.ok (), Except.ok (), Except.ok ()⟩ =
      (Except.error ConsoleErr.ptsnameFailed, []) ∧
    returnedFds (Except.error ConsoleErr.ptsnameFailed) = [] :=
  ⟨rfl, rfl⟩

/-- C4 amended: on every failure of NewConsole, the function closes no
descriptor and hands no descriptor back to the caller: after a successful
open of the master, a later failure leaves the master descriptor open and
unreferenced by the return value. -/
theorem claim4_amended (o : ConsoleOracle) (e : ConsoleErr)
    (herr : (NewConsole o).1 = Except.error e) :
    (NewConsole o).2 = [] ∧ returnedFds (NewConsole o).1 = [] := by
  constructor
  · cases o1 : o.openMaster <;> cases o2 : o.ptsnameNum <;> cases o3 : o.unlockptRes <;>
      cases o4 : o.chmodRes <;> cases o5 : o.chownRes <;>
      simp [NewConsole, o1, o2, o3, o4, o5]
  · rw [herr]
    rfl

/-- C4 witness: the amended theorem at the concrete failing oracle. -/
theorem claim4_witness :
    (NewConsole ⟨Except.ok 5, Except.error (), Except.ok (), Except.ok (), Except.ok ()⟩).2 = [] ∧
    returnedFds (NewConsole ⟨Except.ok 5, Except.error (), Except.ok (), Except.ok (), Except.ok ()⟩).1 = [] :=
  claim4_amended ⟨Except.ok 5, Except.error (), Except.ok (), Except.ok (), Except.ok ()⟩
    ConsoleErr.ptsnameFailed rfl

/-- C5 counterexample: an oversized-name message (n = 4096, correct
ancillary size, otherwise valid control data carrying one descriptor) and a
wrong-ancillary-size message (n = 10, oobn = 0) both fail through the one
combined size check of the source, producing errors of the same kind: the
oversized-name failure is not observably distinct from the wrong-ancillary-
size failure. -/
theorem claim5_counterexample :
    getMasterFromSocket [] 4096 24 (some [some [7]]) = Except.error (RecvErr.invalidByteCount 4096 24) ∧
    getMasterFromSocket [] 10 0 (some [some [7]]) = Except.error (RecvErr.invalidByteCount 10 0) ∧
    (RecvErr.invalidByteCount 4096 24).kind = (RecvErr.invalidByteCount 10 0).kind :=
  ⟨rfl, rfl, rfl⟩

/-- C5 amended: whenever the reported name length reaches the 4096-byte
bound, receiveMaster fails with the combined invalid-byte-count error (the
kind shared with the wrong-ancillary-size violation) and returns before the
control data is parsed: the result is the same for every control-data
input. -/
theorem claim5_amended (name : List Nat) (n oobn : Nat) (ctl : Option (List (Option (List Nat))))
    (h : n ≥ maxNameLen) :
    getMasterFromSocket name n oobn ctl = Except.error (RecvErr.invalidByteCount n oobn) := by
  simp [getMasterFromSocket, h]

/-- C5 witness: the amended theorem at a concrete oversized message. -/
theorem claim5_witness :
    getMasterFromSocket [] 4096 24 none = Except.error (RecvErr.invalidByteCount 4096 24) :=
  claim5_amended [] 4096 24 none (by decide)

/-- C9: closing a Stdio handle set is idempotent: the first call closes
exactly the non-nil members (each once, in source order) and nils every
member, and a second call on the result closes nothing and changes
nothing. -/
theorem claim9_close_idempotent (o o2 : CloseOracle) (p : Option StdioPipes) :
    (StdioPipes.Close o p).1 = Option.map (fun _ => ⟨none, none, none, none⟩) p ∧
    (StdioPipes.Close o p).2.1 = stdioClosedList p ∧
    StdioPipes.Close o2 (StdioPipes.Close o p).1 = ((StdioPipes.Close o p).1, [], none) := by
  cases p with
  | none => simp [StdioPipes.Close, stdioClosedList]
  | some q =>
    obtain ⟨i, u, e, t⟩ := q
    cases i <;> cases u <;> cases e <;> cases t <;>
      simp [StdioPipes.Close, stdioClosedList]

/-- C10: Close always returns a nil error, whatever errors the underlying
streams would report, and calling it on a nil receiver is safe and returns
nil. -/
theorem claim10_close_nil_error (o : CloseOracle) (p : Option StdioPipes) :
    (StdioPipes.Close o p).2.2 = none ∧ StdioPipes.Close o none = (none, [], none) := by
  refine ⟨?_, rfl⟩
  cases p with
  | none => rfl
  | some q =>
    obtain ⟨i, u, e, t⟩ := q
    cases i <;> cases u <;> cases e <;> cases t <;> simp [StdioPipes.Close]
